import Mathlib

/-!
Verification development for the chessnote repository (Xiangqi notation,
rule checking and history recording).  The Python sources are embedded
shallowly: board states become insertion-ordered association lists (the
faithful model of a Python `dict`), fallible operations return
`Except String`, and Python `int` becomes `Int`.
-/

namespace Chessnote

instance {ε α : Type} [DecidableEq ε] [DecidableEq α] : DecidableEq (Except ε α) :=
  fun x y =>
  match x, y with
  | .error a, .error b =>
    if h : a = b then .isTrue (by rw [h]) else .isFalse (by intro hc; cases hc; exact h rfl)
  | .error _, .ok _ => .isFalse (by intro hc; cases hc)
  | .ok _, .error _ => .isFalse (by intro hc; cases hc)
  | .ok a, .ok b =>
    if h : a = b then .isTrue (by rw [h]) else .isFalse (by intro hc; cases hc; exact h rfl)

/-- A board position `(x, y)`, column `x` and row `y` (Python tuple of ints). -/
abbrev Pos := Int × Int

/-- A `ChessState`'s `_pieces` dictionary: an insertion-ordered association
list from positions to single-character piece symbols, with unique keys in
every state actually built by the library (Python `dict` semantics). -/
abbrev State := List (Pos × Char)

/-- `ChessState._VALID_PIECES = "RrHhEeAaCcPpKk"`. -/
def validPieces : List Char := ['R', 'r', 'H', 'h', 'E', 'e', 'A', 'a', 'C', 'c', 'P', 'p', 'K', 'k']

/-- Membership of a piece character in `_VALID_PIECES` (`_check_piece`). -/
def validPiece (c : Char) : Bool := validPieces.contains c

/-- `ChessState._check_key`: `0 <= x < 9 and 0 <= y < 10`. -/
def inBounds (p : Pos) : Bool := 0 ≤ p.1 && p.1 < 9 && 0 ≤ p.2 && p.2 < 10

/-- Raw dictionary lookup `self._pieces.get(key)` (first matching entry). -/
def stateGet (s : State) (p : Pos) : Option Char :=
  (s.find? (fun e => e.1 = p)).map (·.2)

/-- `key in state` through `MutableMapping.__contains__`, which calls
`__getitem__`: an out-of-bounds key raises `KeyError` inside `_check_key`,
which `__contains__` swallows, so containment is bounds check plus lookup. -/
def containsPos (s : State) (p : Pos) : Bool :=
  inBounds p && (stateGet s p).isSome

/-- Python `dict.__setitem__` on the raw `_pieces` dict: update the existing
entry in place if the key is present, else append a new entry. -/
def rawSet (s : State) (p : Pos) (c : Char) : State :=
  if s.any (fun e => e.1 = p) then
    s.map (fun e => if e.1 = p then (p, c) else e)
  else
    s ++ [(p, c)]

/-- Python `dict.__delitem__` on the raw `_pieces` dict. -/
def rawDel (s : State) (p : Pos) : State :=
  s.filter (fun e => ¬ e.1 = p)

/-- `ChessState.__setitem__`: validates the key (`_check_key`) and the piece
(`_check_piece`) before mutating the dictionary. -/
def setItem (s : State) (p : Pos) (c : Char) : Except String State :=
  if ¬ inBounds p then .error "Invalid key: out of board range"
  else if ¬ validPiece c then .error "Invalid piece"
  else .ok (rawSet s p c)

/-- `ChessState.move(start, end)`: raises if `start` is unoccupied (raw dict
containment, no bounds check there); then `self[end] = self[start]` evaluates
`self[start]` (bounds-checked read), then the validated write to `end`, and
finally `del self[start]`. -/
def stateMove (s : State) (start stop : Pos) : Except String State :=
  match stateGet s start with
  | none => .error "No piece at start"
  | some piece =>
    if ¬ inBounds start then .error "Invalid key: out of board range"
    else
      match setItem s stop piece with
      | .error e => .error e
      | .ok s1 => .ok (rawDel s1 start)

/-- `ChessState.rotate_pieces`: relabel every occupied `(x, y)` to
`(8 - x, 9 - y)`, keeping each piece symbol (writes the raw dict directly). -/
def rotatePieces (s : State) : State :=
  s.map (fun e => ((8 - e.1.1, 9 - e.1.2), e.2))

/-- `ChessState._DEFALUT_STATE`, in the source's literal order. -/
def defaultState : State :=
  [((0, 0), 'R'), ((1, 0), 'H'), ((2, 0), 'E'), ((3, 0), 'A'), ((4, 0), 'K'),
   ((5, 0), 'A'), ((6, 0), 'E'), ((7, 0), 'H'), ((8, 0), 'R'),
   ((1, 2), 'C'), ((7, 2), 'C'),
   ((0, 3), 'P'), ((2, 3), 'P'), ((4, 3), 'P'), ((6, 3), 'P'), ((8, 3), 'P'),
   ((0, 6), 'p'), ((2, 6), 'p'), ((4, 6), 'p'), ((6, 6), 'p'), ((8, 6), 'p'),
   ((1, 7), 'c'), ((7, 7), 'c'),
   ((0, 9), 'r'), ((1, 9), 'h'), ((2, 9), 'e'), ((3, 9), 'a'), ((4, 9), 'k'),
   ((5, 9), 'a'), ((6, 9), 'e'), ((7, 9), 'h'), ((8, 9), 'r')]

/-- The invariant of every state the library builds: in-bounds keys, valid
piece symbols, and unique keys (Python `dict`). -/
def ValidState (s : State) : Prop :=
  (∀ e ∈ s, inBounds e.1 = true ∧ validPiece e.2 = true) ∧ (s.map Prod.fst).Nodup

instance : DecidablePred ValidState := fun s => by
  unfold ValidState; infer_instance

/-! ## ChessChecker -/

/-- `ChessChecker._count_between`: number of occupied squares strictly between
two positions aligned on a row or a column (Python iterates a `range`; only
the count matters, so the squares are enumerated from the low coordinate). -/
def countBetween (s : State) (start stop : Pos) : Except String Nat :=
  if start.1 = stop.1 then
    let lo := min start.2 stop.2
    let n := (max start.2 stop.2 - lo - 1).toNat
    .ok (((List.range n).filter
      (fun k => containsPos s (start.1, lo + 1 + (k : Int)))).length)
  else if start.2 = stop.2 then
    let lo := min start.1 stop.1
    let n := (max start.1 stop.1 - lo - 1).toNat
    .ok (((List.range n).filter
      (fun k => containsPos s (lo + 1 + (k : Int), start.2))).length)
  else
    .error "Must be aligned on row or col"

/-- `ChessChecker._check_in_palace`. -/
def checkInPalace (p : Pos) (color : String) (rotateFlag : Bool) : Bool :=
  if (color = "red" && !rotateFlag) || (color = "black" && rotateFlag) then
    3 ≤ p.1 && p.1 ≤ 5 && 0 ≤ p.2 && p.2 ≤ 2
  else
    3 ≤ p.1 && p.1 ≤ 5 && 7 ≤ p.2 && p.2 ≤ 9

/-- `ChessChecker._check_in_side`: is `p` on the player's own side of the
river. -/
def checkInSide (p : Pos) (color : String) (rotateFlag : Bool) : Bool :=
  if (color = "red" && !rotateFlag) || (color = "black" && rotateFlag) then
    p.2 ≤ 4
  else
    p.2 ≥ 5

/-- Same-color test used by the own-capture check in `check_move`
(`isupper`/`islower` agreement of the two symbols). -/
def sameCase (a b : Char) : Bool :=
  (a.isUpper && b.isUpper) || (a.isLower && b.isLower)

/-- The color string computed from a piece symbol, `"red" if piece.isupper()
else "black"` (used identically in `ChessChecker.check_move` and in
`ChessRecorder.move`). -/
def pieceColor (piece : Char) : String :=
  if piece.isUpper then "red" else "black"

/-- The side resolution of `check_move`: the mover's color combined with the
rotation flag gives board side "down" or "up". -/
def sideOf (piece : Char) (rotateFlag : Bool) : String :=
  if (pieceColor piece = "red" && !rotateFlag) ||
     (pieceColor piece = "black" && rotateFlag) then "down" else "up"

/-- `ChessChecker.check_move`: validity of a single move by piece rules only;
`.ok ()` models the Python `return True`, `.error` models a raised
`ValueError`. -/
def checkMove (s : State) (start stop : Pos) (rotateFlag : Bool) :
    Except String Unit :=
  if ¬ containsPos s start then .error "No piece at start"
  else if start = stop then .error "Start and end cannot be the same"
  else
    match stateGet s start with
    | none => .error "No piece at start"
    | some piece =>
      if (((if containsPos s stop then stateGet s stop else none).map
            (sameCase piece)).getD false) then
        .error "Cannot capture own piece"
      else
        if piece = 'R' ∨ piece = 'r' then
          if ¬ (stop.1 - start.1 = 0 ∨ stop.2 - start.2 = 0) then
            .error "Rook must move straight"
          else
            match countBetween s start stop with
            | .error e => .error e
            | .ok cnt =>
              if cnt ≠ 0 then .error "Rook path blocked" else .ok ()
        else if piece = 'H' ∨ piece = 'h' then
          if ¬ ((|stop.1 - start.1|, |stop.2 - start.2|) = ((1 : Int), (2 : Int)) ∨
                (|stop.1 - start.1|, |stop.2 - start.2|) = ((2 : Int), (1 : Int))) then
            .error "Knight must move in sun-shape"
          else
            if containsPos s
                (if |stop.1 - start.1| = 2 then
                   (start.1 + (stop.1 - start.1) / 2, start.2)
                 else (start.1, start.2 + (stop.2 - start.2) / 2)) then
              .error "Knight leg blocked"
            else .ok ()
        else if piece = 'E' ∨ piece = 'e' then
          if ¬ ((|stop.1 - start.1|, |stop.2 - start.2|) = ((2 : Int), (2 : Int))) then
            .error "Elephant must move 2 diagonally"
          else
            if containsPos s
                (start.1 + (stop.1 - start.1) / 2,
                 start.2 + (stop.2 - start.2) / 2) then
              .error "Elephant eye blocked"
            else if ¬ checkInSide stop (pieceColor piece) rotateFlag then
              .error "Elephant cannot cross the river"
            else .ok ()
        else if piece = 'A' ∨ piece = 'a' then
          if ¬ ((|stop.1 - start.1|, |stop.2 - start.2|) = ((1 : Int), (1 : Int))) then
            .error "Advisor must move 1 diagonally"
          else if ¬ checkInPalace stop (pieceColor piece) rotateFlag then
            .error "Advisor must stay inside palace"
          else .ok ()
        else if piece = 'K' ∨ piece = 'k' then
          if ¬ ((|stop.1 - start.1|, |stop.2 - start.2|) = ((1 : Int), (0 : Int)) ∨
                (|stop.1 - start.1|, |stop.2 - start.2|) = ((0 : Int), (1 : Int))) then
            .error "King must move 1 step orthogonally"
          else if ¬ checkInPalace stop (pieceColor piece) rotateFlag then
            .error "King must stay inside palace"
          else .ok ()
        else if piece = 'C' ∨ piece = 'c' then
          if ¬ (stop.1 - start.1 = 0 ∨ stop.2 - start.2 = 0) then
            .error "Cannon must move straight"
          else
            match countBetween s start stop with
            | .error e => .error e
            | .ok cnt =>
              if containsPos s stop then
                if cnt ≠ 1 then
                  .error "Cannon must jump exactly one piece when capturing"
                else .ok ()
              else
                if cnt ≠ 0 then .error "Cannon path blocked" else .ok ()
        else
          if ¬ ((|stop.1 - start.1|, |stop.2 - start.2|) = ((1 : Int), (0 : Int)) ∨
                (|stop.1 - start.1|, |stop.2 - start.2|) = ((0 : Int), (1 : Int))) then
            .error "Pawn must move 1 step"
          else if (sideOf piece rotateFlag = "up" && decide (stop.2 - start.2 > 0)) ||
                  (sideOf piece rotateFlag = "down" && decide (stop.2 - start.2 < 0)) then
            .error "Pawn cannot move backward"
          else if checkInSide stop (pieceColor piece) rotateFlag &&
                  decide (stop.1 - start.1 ≠ 0) then
            .error "Pawn cannot move sideways before crossing river"
          else .ok ()

/-! ## ChessParser -/

/-- A notation command: Python indexes the string character by character, so
a command is modelled as its list of characters. -/
abbrev Cmd := List Char

/-- The Chinese numerals recognised by `detect_color`'s character class. -/
def isChineseNum (c : Char) : Bool :=
  c ∈ ['一', '二', '三', '四', '五', '六', '七', '八', '九', '十']

/-- `ChessParser.detect_color`: a command containing an Arabic digit is
black, one containing a Chinese numeral is red, anything else fails. -/
def detectColor (cmd : Cmd) : Except String String :=
  if cmd.any (·.isDigit) then .ok "black"
  else if cmd.any isChineseNum then .ok "red"
  else .error "Cannot determine color"

/-- `ChessParser.detect_side`: map color and rotation flag to board side. -/
def detectSide (color : String) (rotateFlag : Bool) : String :=
  if !rotateFlag then (if color = "red" then "down" else "up")
  else (if color = "black" then "down" else "up")

/-- The `RED_PIECES` glyph table of `parse_piece_char`. -/
def redPieceMap (c : Char) : Option Char :=
  if c = '车' then some 'R' else if c = '马' then some 'H'
  else if c = '相' then some 'E' else if c = '仕' then some 'A'
  else if c = '帅' then some 'K' else if c = '炮' then some 'C'
  else if c = '兵' then some 'P' else none

/-- The `BLACK_PIECES` glyph table of `parse_piece_char`. -/
def blackPieceMap (c : Char) : Option Char :=
  if c = '車' then some 'r' else if c = '馬' then some 'h'
  else if c = '象' then some 'e' else if c = '士' then some 'a'
  else if c = '将' then some 'k' else if c = '砲' then some 'c'
  else if c = '卒' then some 'p' else none

/-- `ChessParser.parse_piece_char`: strict mode uses only the glyph table of
the command's color; non-strict mode accepts either table and re-cases the
result to match the color. -/
def parsePieceChar (c : Char) (color : String) (strictFlag : Bool) :
    Except String Char :=
  if strictFlag then
    match (if color = "red" then redPieceMap c else blackPieceMap c) with
    | none => .error "Invalid piece (strict)"
    | some p => .ok p
  else
    match (redPieceMap c).orElse (fun _ => blackPieceMap c) with
    | none => .error "Invalid piece"
    | some p => .ok (if color = "red" then p.toUpper else p.toLower)

/-- The `CHINESE_IDX` / `CHINESE_NUM` numeral table (1..9). -/
def chineseIdx (c : Char) : Option Nat :=
  if c = '一' then some 1 else if c = '二' then some 2
  else if c = '三' then some 3 else if c = '四' then some 4
  else if c = '五' then some 5 else if c = '六' then some 6
  else if c = '七' then some 7 else if c = '八' then some 8
  else if c = '九' then some 9 else none

/-- `ChessParser.parse_col_idx`: red columns are Chinese numerals 1-9, black
columns Arabic digits 1-9, both 0-based afterwards; a "down" side mirrors the
index as `8 - col`. -/
def parseColIdx (c : Char) (color side : String) : Except String Int :=
  if color = "red" then
    match chineseIdx c with
    | some n =>
      let col : Int := (n : Int) - 1
      .ok (if side = "down" then 8 - col else col)
    | none => .error "Red column must be Chinese numerals"
  else
    if c.isDigit then
      let idx : Int := (c.toNat : Int) - ('0'.toNat : Int) - 1
      if 0 ≤ idx ∧ idx ≤ 8 then
        .ok (if side = "down" then 8 - idx else idx)
      else .error "Black column must be in 1-9"
    else .error "Black column must be numeric"

/-- `ChessParser.parse_row_delta`: forward/backward step size; red uses
Chinese numerals 1-9, black Arabic digits (the source accepts 0-9); an "up"
side negates the delta. -/
def parseRowDelta (c : Char) (color side : String) : Except String Int :=
  if color = "red" then
    match chineseIdx c with
    | some n =>
      let delta : Int := (n : Int)
      .ok (if side = "up" then -delta else delta)
    | none => .error "Red step must be in Chinese numerals"
  else
    if c.isDigit then
      let idx : Int := (c.toNat : Int) - ('0'.toNat : Int)
      if 0 ≤ idx ∧ idx ≤ 9 then
        .ok (if side = "up" then -idx else idx)
      else .error "Black step must be in 1-9"
    else .error "Invalid black step"

/-- The resolution `rotate_flag or get_rotate_flag()` used by
`parse_cmd` and `ChessRecorder.__init__` (an explicit `False` is falsy and
therefore replaced by the process-wide default `g`). -/
def resolveRotate (rf : Option Bool) (g : Bool) : Bool :=
  match rf with
  | some b => if b then true else g
  | none => g

/-- The reverse map built at the top of `parse_cmd`: all positions holding a
given piece symbol, in the state's insertion order. -/
def stateMap (s : State) (piece : Char) : List Pos :=
  (s.filter (fun e => e.2 = piece)).map Prod.fst

/-- Stable insertion into a list ascending by `key` (used to model
`list.sort(key=...)`, which is a stable ascending sort). -/
def insByKey (key : Pos → Int) (x : Pos) : List Pos → List Pos
  | [] => [x]
  | y :: ys => if key x ≤ key y then x :: y :: ys else y :: insByKey key x ys

/-- Stable ascending sort by `key`, modelling Python `list.sort(key=...)`. -/
def sortByKey (key : Pos → Int) : List Pos → List Pos
  | [] => []
  | x :: xs => insByKey key x (sortByKey key xs)

/-- The source-position selection of `parse_cmd`'s default (non-disambiguated)
form: the first position of the piece whose column matches. -/
def selectStartNormal (positions : List Pos) (startCol : Int) :
    Except String Pos :=
  match positions.find? (fun p => p.1 = startCol) with
  | some p => .ok p
  | none => .error "Source piece not found at column"

/-- `positions.sort(key=lambda x: -x[1])` for side "down" and
`positions.sort(key=lambda x: x[1])` for side "up" in `parse_cmd`'s
disambiguated form: nearest-own-edge first. -/
def sortForSide (positions : List Pos) (side : String) : List Pos :=
  if side = "down" then sortByKey (fun p => -p.2) positions
  else sortByKey (fun p => p.2) positions

/-- The source-position selection of `parse_cmd`'s disambiguated form
(front / middle / back marker `c0`): all positions of the piece must share a
column; they are sorted by row, descending for side "down" and ascending for
"up", then the marker picks the first, second-of-three, or last. -/
def selectStartHard (positions : List Pos) (c0 : Char) (side : String) :
    Except String Pos :=
  match positions with
  | [] => .error "KeyError: piece not in state map"
  | p0 :: ps =>
    if ps.any (fun q => ¬ q.1 = p0.1) then
      .error "Pieces not in same column"
    else
      if c0 = '前' then
        if (p0 :: ps).length < 2 then .error "front requires at least 2 pieces"
        else
          match sortForSide (p0 :: ps) side with
          | [] => .error "unreachable"
          | q :: _ => .ok q
      else if c0 = '后' then
        if (p0 :: ps).length < 2 then .error "back requires at least 2 pieces"
        else
          match (sortForSide (p0 :: ps) side).getLast? with
          | none => .error "unreachable"
          | some q => .ok q
      else
        if (p0 :: ps).length < 3 then .error "middle requires at least 3 pieces"
        else
          match sortForSide (p0 :: ps) side with
          | _ :: q :: _ => .ok q
          | _ => .error "unreachable"

/-- The destination computation of `parse_cmd`, given the resolved piece,
color, side, source position and the operation/operand glyphs. -/
def parseEnd (piece : Char) (color side : String) (start : Pos)
    (opType opArg : Char) : Except String Pos :=
  if piece.toLower = 'k' ∨ piece.toLower = 'r' ∨ piece.toLower = 'c' ∨
     piece.toLower = 'p' then
    if opType = '平' then
      match parseColIdx opArg color side with
      | .error e => .error e
      | .ok col => .ok (col, start.2)
    else if opType = '进' then
      match parseRowDelta opArg color side with
      | .error e => .error e
      | .ok d =>
        let endRow := start.2 + d
        if ¬ (0 ≤ endRow ∧ endRow ≤ 9) then .error "Row out of range"
        else .ok (start.1, endRow)
    else if opType = '退' then
      match parseRowDelta opArg color side with
      | .error e => .error e
      | .ok d =>
        let endRow := start.2 - d
        if ¬ (0 ≤ endRow ∧ endRow ≤ 9) then .error "Row out of range"
        else .ok (start.1, endRow)
    else .error "Invalid operator"
  else if piece.toLower = 'a' ∨ piece.toLower = 'e' then
    match parseColIdx opArg color side with
    | .error e => .error e
    | .ok endCol =>
      let deltaUnit : Char :=
        if piece.toLower = 'a' then (if color = "red" then '一' else '1')
        else (if color = "red" then '二' else '2')
      if opType = '进' then
        match parseRowDelta deltaUnit color side with
        | .error e => .error e
        | .ok d => .ok (endCol, start.2 + d)
      else if opType = '退' then
        match parseRowDelta deltaUnit color side with
        | .error e => .error e
        | .ok d => .ok (endCol, start.2 - d)
      else .error "Invalid operator"
  else
    match parseColIdx opArg color side with
    | .error e => .error e
    | .ok endCol =>
      if |endCol - start.1| = 1 ∨ |endCol - start.1| = 2 then
        let deltaUnit : Char :=
          if |endCol - start.1| = 1 then (if color = "red" then '二' else '2')
          else (if color = "red" then '一' else '1')
        if opType = '进' then
          match parseRowDelta deltaUnit color side with
          | .error e => .error e
          | .ok d => .ok (endCol, start.2 + d)
        else if opType = '退' then
          match parseRowDelta deltaUnit color side with
          | .error e => .error e
          | .ok d => .ok (endCol, start.2 - d)
        else .error "Invalid operator"
      else .error "Invalid horse move"

/-- `ChessParser.parse_cmd`: resolve the rotation flag (an explicit `True`
wins, otherwise the process-wide default `g`), tokenize the four command
characters (fewer raise `IndexError`), detect color and side, map the piece
glyph, resolve the source position (default or disambiguated form), and
compute the destination. -/
def parseCmd (s : State) (cmd : Cmd) (rotateFlag : Option Bool)
    (strictFlag : Bool) (g : Bool) : Except String (Pos × Pos) :=
  match cmd with
  | c0 :: c1 :: c2 :: c3 :: _ =>
    match detectColor cmd with
    | .error e => .error e
    | .ok color =>
      match parsePieceChar
          (if c0 = '前' ∨ c0 = '中' ∨ c0 = '后' then c1 else c0)
          color strictFlag with
      | .error e => .error e
      | .ok piece =>
        match (if c0 = '前' ∨ c0 = '中' ∨ c0 = '后' then
                 selectStartHard (stateMap s piece) c0
                   (detectSide color (resolveRotate rotateFlag g))
               else if (stateMap s piece).isEmpty then
                 .error "Source piece not found"
               else
                 match parseColIdx c1 color
                     (detectSide color (resolveRotate rotateFlag g)) with
                 | .error e => .error e
                 | .ok startCol =>
                   selectStartNormal (stateMap s piece) startCol) with
        | .error e => .error e
        | .ok start =>
          match parseEnd piece color
              (detectSide color (resolveRotate rotateFlag g)) start c2 c3 with
          | .error e => .error e
          | .ok stop => .ok (start, stop)
  | _ => .error "IndexError: command too short"

/-! ## ChessRecorder -/

/-- Lookup in a Python `dict` with `str` keys (`d.get(k, default)`). -/
def getStrD (l : List (String × String)) (k d : String) : String :=
  match l.find? (fun e => e.1 = k) with
  | some e => e.2
  | none => d

/-- Lookup in a Python `dict` with `str` keys, returning an option. -/
def lookupStr {α : Type} (l : List (String × α)) (k : String) : Option α :=
  (l.find? (fun e => e.1 = k)).map (·.2)

/-- Python `dict.__setitem__` for `str` keys: update in place or append. -/
def setStr {α : Type} (l : List (String × α)) (k : String) (v : α) :
    List (String × α) :=
  if l.any (fun e => e.1 = k) then
    l.map (fun e => if e.1 = k then (k, v) else e)
  else
    l ++ [(k, v)]

/-- `ChessNode`: a state snapshot, an optional move trace and the
`extra_info` metadata dictionary. -/
structure Node where
  state : State
  trace : Option (Pos × Pos)
  extraInfo : List (String × String)
  deriving DecidableEq

/-- `ChessRecorder`: the history deque is split as root node plus the list
of later nodes, which structurally encodes the "length at least 1 and the
root is never popped" behaviour of `ChessNodeDeque`. -/
structure Recorder where
  root : Node
  rest : List Node
  rotateFlag : Bool
  checkpoints : List (String × Nat)
  deriving DecidableEq

/-- The full history sequence `ChessNodeDeque._queue`. -/
def Recorder.history (r : Recorder) : List Node := r.root :: r.rest

/-- `len(self._history)`. -/
def Recorder.historyLen (r : Recorder) : Nat := r.rest.length + 1

/-- `self._history._queue[-1]`. -/
def Recorder.lastNode (r : Recorder) : Node := r.rest.getLast?.getD r.root

/-- `ChessRecorder.__init__` from an explicit initial state: the stored
rotation flag is `rotate_flag or get_rotate_flag()` with global default `g`. -/
def Recorder.init (s : State) (rf : Option Bool) (g : Bool) : Recorder :=
  { root := { state := s, trace := none, extraInfo := [] }
    rest := []
    rotateFlag := resolveRotate rf g
    checkpoints := [] }

/-- The `extra_info.get("color", "")` of a node. -/
def nodeColor (n : Node) : String := getStrD n.extraInfo "color" ""

/-- The optional `desc` entry of the metadata built in `ChessRecorder.move`
(`if desc:` is false for `None` and for the empty string). -/
def descInfo (desc : Option String) : List (String × String) :=
  match desc with
  | some d => if d = "" then [] else [("desc", d)]
  | none => []

/-- The node appended by a successful `ChessRecorder.move`. -/
def moveNode (start stop : Pos) (desc : Option String) (piece : Char)
    (newState : State) : Node :=
  { state := newState, trace := some (start, stop),
    extraInfo := ("color", pieceColor piece) :: descInfo desc }

/-- `ChessRecorder.move`: run `check_move` on the last state, reject a mover
whose color equals the previous node's recorded color, apply
`ChessState.move` to a copy of the last state and append the new node (with
`color` and, when the description is non-empty, `desc` metadata). -/
def Recorder.move (r : Recorder) (start stop : Pos) (desc : Option String) :
    Except String Recorder :=
  match checkMove r.lastNode.state start stop r.rotateFlag with
  | .error e => .error e
  | .ok _ =>
    match stateGet r.lastNode.state start with
    | none => .error "unreachable: check_move guarantees occupancy"
    | some piece =>
      if nodeColor r.lastNode = pieceColor piece then
        .error "The color of the current player is the same as the previous player."
      else
        match stateMove r.lastNode.state start stop with
        | .error e => .error e
        | .ok newState =>
          .ok { r with rest := r.rest ++ [moveNode start stop desc piece newState] }

/-- One iteration of the `exec` loop body: parse the command against the
current last state (the recorder's own rotation flag is passed explicitly,
global default `g`) and apply it via `move` with the command as description. -/
def Recorder.stepCmd (r : Recorder) (cmd : Cmd) (strictFlag g : Bool) :
    Except String Recorder :=
  match parseCmd r.lastNode.state cmd (some r.rotateFlag) strictFlag g with
  | .error e => .error e
  | .ok (start, stop) => r.move start stop (some (String.mk cmd))

/-- `ChessRecorder.exec` on an explicit command list: empty commands are
skipped (`filter(None, cmds)`), the rest run in order; the first failure
stops the batch, leaving the recorder as mutated so far together with the
raised error. -/
def Recorder.execGo (r : Recorder) (cmds : List Cmd) (strictFlag g : Bool) :
    Recorder × Option String :=
  match cmds with
  | [] => (r, none)
  | c :: cs =>
    if c = [] then r.execGo cs strictFlag g
    else
      match r.stepCmd c strictFlag g with
      | .error e => (r, some e)
      | .ok r' => r'.execGo cs strictFlag g

/-- `ChessRecorder.set_checkpoint`: record the current history length. -/
def Recorder.setCheckpoint (r : Recorder) (name : String) : Recorder :=
  { r with checkpoints := setStr r.checkpoints name r.historyLen }

/-- The `while len(history) > target: pop()` loop of
`rollback_to_checkpoint`, acting on the non-root part of the history.  For
every recorded target length (always at least 1) it truncates the tail down
to that length; the source loop would not terminate for a target below 1,
which no reachable checkpoint table contains. -/
def shrinkRest (rest : List Node) (target : Nat) : List Node :=
  if rest.length + 1 > target then rest.take (target - 1) else rest

/-- `ChessRecorder.rollback_to_checkpoint`: fail when the name is absent,
else pop nodes from the tail until the history length equals the recorded
length. -/
def Recorder.rollbackToCheckpoint (r : Recorder) (name : String) :
    Except String Recorder :=
  match lookupStr r.checkpoints name with
  | none => .error "Checkpoint not found"
  | some target => .ok { r with rest := shrinkRest r.rest target }

/-- `steps` iterations of `ChessNodeDeque.pop`: each drops the last node
unless only the root remains. -/
def popNRest (rest : List Node) : Nat → List Node
  | 0 => rest
  | n + 1 => popNRest (if rest.isEmpty then rest else rest.dropLast) n

/-- `ChessRecorder.rollback`: fail on a negative step count, else pop up to
`steps` nodes from the tail. -/
def Recorder.rollback (r : Recorder) (steps : Int) : Except String Recorder :=
  if steps < 0 then .error "Steps must be non-negative"
  else .ok { r with rest := popNRest r.rest steps.toNat }

/-- Recorders reachable from a freshly constructed one by the operations
named in the history claims: `move`, `exec`, `rollback`,
`rollback_to_checkpoint` and `set_checkpoint` (the global rotation default
may differ between calls, so each step takes its own `g`). -/
inductive Reachable : Recorder → Prop
  | init (s : State) (rf : Option Bool) (g : Bool) :
      Reachable (Recorder.init s rf g)
  | move {r r' : Recorder} (start stop : Pos) (desc : Option String)
      (hr : Reachable r) (h : r.move start stop desc = .ok r') : Reachable r'
  | exec {r : Recorder} (cmds : List Cmd) (strictFlag g : Bool)
      (hr : Reachable r) : Reachable (r.execGo cmds strictFlag g).1
  | rollback {r r' : Recorder} (steps : Int) (hr : Reachable r)
      (h : r.rollback steps = .ok r') : Reachable r'
  | rollbackCp {r r' : Recorder} (name : String) (hr : Reachable r)
      (h : r.rollbackToCheckpoint name = .ok r') : Reachable r'
  | setCp {r : Recorder} (name : String) (hr : Reachable r) :
      Reachable (r.setCheckpoint name)

/-- The alternation relation between two consecutive history nodes: if both
carry a move trace, their recorded mover colors differ. -/
def AltRel (a b : Node) : Prop :=
  a.trace.isSome → b.trace.isSome → nodeColor a ≠ nodeColor b

instance : ∀ a b, Decidable (AltRel a b) := fun a b => by
  unfold AltRel; infer_instance

/-! ## ChessState serialization helpers (save_to_dict / load_from_dict) -/

/-- Decimal digits of a natural number, most significant first, with an
explicit fuel argument for structural recursion (fuel `n + 1` suffices). -/
def natDigitsAux : Nat → Nat → List Char → List Char
  | 0, _, acc => acc
  | fuel + 1, n, acc =>
    let d := Char.ofNat (48 + n % 10)
    if n < 10 then d :: acc else natDigitsAux fuel (n / 10) (d :: acc)

/-- Decimal digits of a natural number, most significant first (the decimal
rendering used by Python `str` on an `int`). -/
def natDigits (n : Nat) : List Char := natDigitsAux (n + 1) n []

/-- Python decimal rendering of an `int`. -/
def intToStr (i : Int) : String :=
  if i < 0 then "-" ++ String.mk (natDigits (-i).toNat)
  else String.mk (natDigits i.toNat)

/-- Python `str((x, y))`: the canonical token `"(x, y)"` used as the
serialized form of a position in `save_to_dict`. -/
def posToKey (p : Pos) : String :=
  "(" ++ intToStr p.1 ++ ", " ++ intToStr p.2 ++ ")"

/-- Drop leading blanks (the whitespace tolerance of `ast.literal_eval`). -/
def dropSpaces (l : List Char) : List Char := l.dropWhile (· = ' ')

/-- Parse a leading run of decimal digits. -/
def parseNatChars (l : List Char) : Option (Nat × List Char) :=
  let digs := l.takeWhile Char.isDigit
  if digs.isEmpty then none
  else some (digs.foldl (fun a c => a * 10 + (c.toNat - 48)) 0,
             l.dropWhile Char.isDigit)

/-- Parse a leading optionally-signed decimal integer. -/
def parseIntChars (l : List Char) : Option (Int × List Char) :=
  match l with
  | '-' :: rest => (parseNatChars rest).map (fun x => (-(x.1 : Int), x.2))
  | _ => (parseNatChars l).map (fun x => ((x.1 : Int), x.2))

/-- The `ast.literal_eval(key)` step of `load_from_dict`, restricted to the
only literal shape the subsequent `_check_key` validation accepts: a
parenthesised pair of two integers.  Tokens of any other shape fail either
inside `literal_eval` or inside `_check_key`; both are rejections, so the
model collapses them into a `none` result here. -/
def parseKey (str : String) : Option Pos :=
  match dropSpaces str.data with
  | '(' :: rest =>
    match parseIntChars (dropSpaces rest) with
    | none => none
    | some (a, rest1) =>
      match dropSpaces rest1 with
      | ',' :: rest2 =>
        match parseIntChars (dropSpaces rest2) with
        | none => none
        | some (b, rest3) =>
          match dropSpaces rest3 with
          | [')'] => some (a, b)
          | _ => none
      | _ => none
  | _ => none

/-- `ChessStateIO.save_to_dict`: serialize each position as its canonical
token, keeping the dictionary's insertion order. -/
def saveToDict (s : State) : List (String × Char) :=
  s.map (fun e => (posToKey e.1, e.2))

/-- The loop of `load_from_dict`: starting from an empty state, parse each
token and insert through the validated `__setitem__`. -/
def loadGo (acc : State) : List (String × Char) → Except String State
  | [] => .ok acc
  | (k, c) :: rest =>
    match parseKey k with
    | none => .error "malformed position token"
    | some p =>
      match setItem acc p c with
      | .error e => .error e
      | .ok acc' => loadGo acc' rest

/-- `ChessStateIO.load_from_dict`. -/
def loadFromDict (data : List (String × Char)) : Except String State :=
  loadGo [] data

/-! ## Helper lemmas about states -/

theorem stateGet_mem {s : State} {p : Pos} {c : Char}
    (h : stateGet s p = some c) : (p, c) ∈ s := by
  unfold stateGet at h
  cases hf : s.find? (fun e => e.1 = p) with
  | none => rw [hf] at h; cases h
  | some e =>
    rw [hf] at h
    have hm := List.mem_of_find?_eq_some hf
    have hp := List.find?_some hf
    obtain ⟨e1, e2⟩ := e
    simp only [Option.map_some'] at h
    simp only [decide_eq_true_eq] at hp
    cases h; cases hp; exact hm

theorem valid_stateGet {s : State} {p : Pos} {c : Char} (hv : ValidState s)
    (h : stateGet s p = some c) : inBounds p = true ∧ validPiece c = true :=
  hv.1 (p, c) (stateGet_mem h)

/-! ## Claim C9: rotation -/

theorem stateGet_rotatePieces (s : State) (p : Pos) :
    stateGet (rotatePieces s) (8 - p.1, 9 - p.2) = stateGet s p := by
  induction s with
  | nil => rfl
  | cons e t ih =>
    unfold rotatePieces stateGet at *
    simp only [List.map_cons, List.find?_cons]
    have hiff : (decide (((8 - e.1.1 : Int), (9 - e.1.2 : Int)) = (8 - p.1, 9 - p.2)))
        = (decide (e.1 = p)) := by
      rw [decide_eq_decide]
      obtain ⟨⟨x, y⟩, c⟩ := e
      obtain ⟨px, py⟩ := p
      simp only [Prod.mk.injEq]
      omega
    rw [hiff]
    cases hd : decide (e.1 = p) with
    | true => simp
    | false => exact ih

/-- Claim C9: for every board state, `rotate_pieces` relabels each occupied
position `(x, y)` to `(8 - x, 9 - y)` without changing any piece symbol, and
applying it twice yields the original state (rotation is an involution). -/
theorem C9_rotate_involution :
    (∀ s : State, rotatePieces (rotatePieces s) = s) ∧
    (∀ (s : State) (p : Pos),
      stateGet (rotatePieces s) (8 - p.1, 9 - p.2) = stateGet s p) := by
  refine ⟨?_, stateGet_rotatePieces⟩
  intro s
  unfold rotatePieces
  rw [List.map_map]
  have h : ∀ e ∈ s, ((fun e : Pos × Char => ((8 - e.1.1, 9 - e.1.2), e.2)) ∘
      (fun e : Pos × Char => ((8 - e.1.1, 9 - e.1.2), e.2))) e = e := by
    intro e _
    obtain ⟨⟨x, y⟩, c⟩ := e
    show ((8 - (8 - x), 9 - (9 - y)), c) = ((x, y), c)
    have hx : (8 : Int) - (8 - x) = x := by omega
    have hy : (9 : Int) - (9 - y) = y := by omega
    rw [hx, hy]
  rw [List.map_congr_left h, List.map_id']

/-! ## Claim C10: falsy rotation flag -/

/-- Claim C10: passing `rotate_flag=False` to `parse_cmd` (and to the
`ChessRecorder` constructor) is indistinguishable from passing
`rotate_flag=None`, because the flag resolves as
`rotate_flag or get_rotate_flag()`; consequently, whenever the process-wide
default is `True`, the unrotated orientation cannot be requested. -/
theorem C10_rotate_flag_falsy :
    (∀ (s : State) (cmd : Cmd) (strictFlag g : Bool),
      parseCmd s cmd (some false) strictFlag g =
        parseCmd s cmd none strictFlag g) ∧
    (∀ (s : State) (g : Bool),
      Recorder.init s (some false) g = Recorder.init s none g) ∧
    (∀ rf : Option Bool, resolveRotate rf true = true) := by
  refine ⟨fun s cmd st g => rfl, fun s g => rfl, fun rf => ?_⟩
  match rf with
  | none => rfl
  | some true => rfl
  | some false => rfl

/-! ## Claim C6: rollback -/

theorem popNRest_length :
    ∀ (n : Nat) (l : List Node), (popNRest l n).length = l.length - n := by
  intro n
  induction n with
  | zero => intro l; rfl
  | succ k ih =>
    intro l
    cases l with
    | nil =>
      show (popNRest [] k).length = _
      rw [ih]
      simp
    | cons a t =>
      show (popNRest ((a :: t).dropLast) k).length = _
      rw [ih, List.length_dropLast]
      simp only [List.length_cons]
      omega

theorem popNRest_eq_take :
    ∀ (n : Nat) (l : List Node), popNRest l n = l.take (l.length - n) := by
  intro n
  induction n with
  | zero =>
    intro l
    show l = l.take (l.length - 0)
    rw [Nat.sub_zero, List.take_length]
  | succ k ih =>
    intro l
    cases l with
    | nil =>
      show popNRest [] k = _
      rw [ih]
      simp
    | cons a t =>
      show popNRest ((a :: t).dropLast) k = _
      rw [ih, List.length_dropLast, List.dropLast_eq_take, List.take_take]
      congr 1
      simp only [List.length_cons]
      omega

/-- Claim C6: `rollback(steps)` fails on a negative count (no history
change), otherwise removes up to `steps` nodes from the tail but never the
root, so the history length becomes `max 1 (length - steps)` and stays at
least 1; on a history of length 3, `rollback(2)` leaves length 1 and a
further `rollback(5)` is a non-failing no-op. -/
theorem C6_rollback :
    (∀ (r : Recorder) (steps : Int), steps < 0 →
      ∃ e, r.rollback steps = .error e) ∧
    (∀ (r : Recorder) (steps : Int), 0 ≤ steps →
      ∃ r', r.rollback steps = .ok r' ∧ r'.root = r.root ∧
        r'.rest = r.rest.take (r.rest.length - steps.toNat) ∧
        r'.historyLen = max 1 (r.historyLen - steps.toNat) ∧
        1 ≤ r'.historyLen) ∧
    (∀ (n : Node),
      (Recorder.mk n [n, n] false []).rollback 2 =
        .ok (Recorder.mk n [] false []) ∧
      (Recorder.mk n [] false []).rollback 5 =
        .ok (Recorder.mk n [] false []) ∧
      (Recorder.mk n [] false []).historyLen = 1) := by
  refine ⟨?_, ?_, ?_⟩
  · intro r steps h
    unfold Recorder.rollback
    rw [if_pos h]
    exact ⟨_, rfl⟩
  · intro r steps h
    unfold Recorder.rollback
    rw [if_neg (by omega)]
    refine ⟨_, rfl, rfl, popNRest_eq_take _ _, ?_, ?_⟩
    · show (popNRest r.rest steps.toNat).length + 1 = _
      rw [popNRest_length]
      unfold Recorder.historyLen
      omega
    · show 1 ≤ (popNRest r.rest steps.toNat).length + 1
      omega
  · intro n
    exact ⟨rfl, rfl, rfl⟩

/-- Concrete instantiation of the `rollback` theorem: a negative count fails
and a rollback past the root stops at the root. -/
theorem C6_rollback_witness :
    (∃ e, (Recorder.init defaultState none false).rollback (-1) = .error e) ∧
    (∃ r', (Recorder.init defaultState none false).rollback 2 = .ok r' ∧
      r'.root = (Recorder.init defaultState none false).root ∧
      r'.rest = (Recorder.init defaultState none false).rest.take
        ((Recorder.init defaultState none false).rest.length - (2 : Int).toNat) ∧
      r'.historyLen =
        max 1 ((Recorder.init defaultState none false).historyLen - (2 : Int).toNat) ∧
      1 ≤ r'.historyLen) :=
  ⟨C6_rollback.1 (Recorder.init defaultState none false) (-1) (by decide),
   C6_rollback.2.1 (Recorder.init defaultState none false) 2 (by decide)⟩

/-! ## Claim C2: ChessState.move -/

theorem find?_filter_eq {α : Type} (l : List α) (pr f : α → Bool)
    (h : ∀ e, pr e = true → f e = true) :
    (l.filter f).find? pr = l.find? pr := by
  induction l with
  | nil => rfl
  | cons a t ih =>
    cases hf : f a with
    | false =>
      cases hp : pr a with
      | false => simp [List.filter_cons, hf, List.find?_cons, hp, ih]
      | true => exact absurd (h a hp) (by rw [hf]; exact Bool.false_ne_true)
    | true =>
      simp only [List.filter_cons, hf, if_true, List.find?_cons]
      cases hp : pr a with
      | false => exact ih
      | true => rfl

theorem stateGet_rawDel_self (s : State) (p : Pos) :
    stateGet (rawDel s p) p = none := by
  unfold stateGet rawDel
  have h : (s.filter (fun e => ¬ e.1 = p)).find? (fun e => e.1 = p) = none := by
    rw [List.find?_eq_none]
    intro x hx
    have hm := (List.mem_filter.mp hx).2
    simp only [decide_eq_true_eq] at hm ⊢
    exact hm
  rw [h]
  rfl

theorem stateGet_rawDel_other (s : State) (p q : Pos) (h : q ≠ p) :
    stateGet (rawDel s p) q = stateGet s q := by
  unfold stateGet rawDel
  rw [find?_filter_eq]
  intro e he
  simp only [decide_eq_true_eq] at he ⊢
  rw [he]
  exact h

theorem stateGet_rawSet_self (s : State) (p : Pos) (c : Char) :
    stateGet (rawSet s p c) p = some c := by
  unfold rawSet
  by_cases hany : s.any (fun e => e.1 = p) = true
  · rw [if_pos hany]
    induction s with
    | nil => cases hany
    | cons e t ih =>
      cases he : (decide (e.1 = p)) with
      | true =>
        have he' : e.1 = p := of_decide_eq_true he
        unfold stateGet
        simp only [List.map_cons, List.find?_cons, if_pos he', decide_True]
        rfl
      | false =>
        have he' : ¬ e.1 = p := of_decide_eq_false he
        have hany' : t.any (fun e => e.1 = p) = true := by
          rw [List.any_cons] at hany
          simp only [he, Bool.false_or] at hany
          exact hany
        unfold stateGet
        simp only [List.map_cons, List.find?_cons, if_neg he', he]
        exact ih hany'
  · rw [if_neg hany]
    unfold stateGet
    rw [List.find?_append]
    have hnone : s.find? (fun e => e.1 = p) = none := by
      rw [List.find?_eq_none]
      intro x hx
      have := List.any_eq_false.mp (Bool.eq_false_iff.mpr hany) x hx
      simpa using this
    rw [hnone]
    simp [List.find?_cons]

theorem find?_map_upd (s : State) (p q : Pos) (c : Char) (h : q ≠ p) :
    (s.map (fun e => if e.1 = p then (p, c) else e)).find?
      (fun e => e.1 = q) = s.find? (fun e => e.1 = q) := by
  induction s with
  | nil => rfl
  | cons e t ih =>
    by_cases hep : e.1 = p
    · have h1 : (if e.1 = p then (p, c) else e) = (p, c) := if_pos hep
      simp only [List.map_cons, h1, List.find?_cons]
      have h2 : (decide ((p, c).1 = q)) = false := by
        simp only [decide_eq_false_iff_not]
        intro hc
        exact h (hc ▸ rfl)
      have h3 : (decide (e.1 = q)) = false := by
        simp only [decide_eq_false_iff_not]
        rw [hep]
        intro hc
        exact h (hc ▸ rfl)
      rw [h2, h3]
      exact ih
    · have h1 : (if e.1 = p then (p, c) else e) = e := if_neg hep
      simp only [List.map_cons, h1, List.find?_cons]
      cases hq : (decide (e.1 = q)) with
      | true => rfl
      | false => exact ih

theorem stateGet_rawSet_other (s : State) (p q : Pos) (c : Char) (h : q ≠ p) :
    stateGet (rawSet s p c) q = stateGet s q := by
  unfold rawSet
  by_cases hany : s.any (fun e => e.1 = p) = true
  · rw [if_pos hany]
    unfold stateGet
    rw [find?_map_upd s p q c h]
  · rw [if_neg hany]
    unfold stateGet
    rw [List.find?_append]
    have h1 : ([(p, c)].find? (fun e => e.1 = q)) = none := by
      simp only [List.find?_cons]
      have : (decide ((p, c).1 = q)) = false := by
        simp only [decide_eq_false_iff_not]
        intro hc
        exact h (hc ▸ rfl)
      rw [this]
      rfl
    rw [h1]
    cases s.find? (fun e => e.1 = q) <;> rfl

/-- The claim as frozen is violated only at `start = end`: there the source
performs `self[end] = self[start]` (a no-op rewrite) and then
`del self[start]`, deleting the piece outright.  A one-piece state shows it:
the move succeeds but the piece no longer occupies `end`. -/
theorem C2_move_counterexample :
    (stateMove [(((0 : Int), (0 : Int)), 'R')] (0, 0) (0, 0)).isOk = true ∧
    ¬ ∃ s', stateMove [(((0 : Int), (0 : Int)), 'R')] (0, 0) (0, 0) = .ok s' ∧
      stateGet s' ((0 : Int), (0 : Int)) = some 'R' := by
  constructor
  · decide
  · intro ⟨s', hs, hg⟩
    have h1 : stateMove [(((0 : Int), (0 : Int)), 'R')] (0, 0) (0, 0) =
        .ok [] := by decide
    rw [h1] at hs
    cases hs
    cases hg

/-- Claim C2 (amended): for every valid board state and in-bounds positions,
`ChessState.move(start, end)` fails exactly when `start` is unoccupied;
when it succeeds and `start ≠ end`, the piece formerly at `start` occupies
`end`, whatever occupied `end` is overwritten, and every other position is
unchanged; when `start = end` the move also succeeds but leaves `start`
unoccupied (the piece is deleted rather than kept). -/
theorem C2_move :
    ∀ (s : State) (start stop : Pos), ValidState s → inBounds start = true →
      inBounds stop = true →
      ((stateMove s start stop).isOk = true ↔ (stateGet s start).isSome = true) ∧
      (∀ c, stateGet s start = some c → start ≠ stop →
        ∃ s', stateMove s start stop = .ok s' ∧
          stateGet s' stop = some c ∧ stateGet s' start = none ∧
          ∀ q, q ≠ start → q ≠ stop → stateGet s' q = stateGet s q) ∧
      (∀ c, stateGet s start = some c → start = stop →
        ∃ s', stateMove s start stop = .ok s' ∧
          stateGet s' start = none ∧
          ∀ q, q ≠ start → stateGet s' q = stateGet s q) := by
  intro s start stop hv hbs hbe
  have hok : ∀ c, stateGet s start = some c →
      stateMove s start stop = .ok (rawDel (rawSet s stop c) start) := by
    intro c hc
    have hvp : validPiece c = true := (valid_stateGet hv hc).2
    simp [stateMove, setItem, hc, hbs, hbe, hvp]
  refine ⟨?_, ?_, ?_⟩
  · constructor
    · intro h
      cases hc : stateGet s start with
      | none => unfold stateMove at h; rw [hc] at h; cases h
      | some c => rfl
    · intro h
      cases hc : stateGet s start with
      | none => rw [hc] at h; cases h
      | some c => rw [hok c hc]; rfl
  · intro c hc hne
    refine ⟨_, hok c hc, ?_, ?_, ?_⟩
    · rw [stateGet_rawDel_other _ _ _ (Ne.symm hne), stateGet_rawSet_self]
    · rw [stateGet_rawDel_self]
    · intro q hqs hqe
      rw [stateGet_rawDel_other _ _ _ hqs, stateGet_rawSet_other _ _ _ _ hqe]
  · intro c hc heq
    refine ⟨_, hok c hc, ?_, ?_⟩
    · rw [stateGet_rawDel_self]
    · intro q hqs
      rw [stateGet_rawDel_other _ _ _ hqs,
          stateGet_rawSet_other _ _ _ _ (heq ▸ hqs)]

/-- Concrete instantiation of the `move` theorem on the default opening
state: advancing the pawn at `(0,3)` to `(0,4)`. -/
theorem C2_move_witness :
    ∃ s', stateMove defaultState ((0 : Int), (3 : Int)) ((0 : Int), (4 : Int)) = .ok s' ∧
      stateGet s' ((0 : Int), (4 : Int)) = some 'P' ∧
      stateGet s' ((0 : Int), (3 : Int)) = none ∧
      ∀ q, q ≠ ((0 : Int), (3 : Int)) → q ≠ ((0 : Int), (4 : Int)) →
        stateGet s' q = stateGet defaultState q :=
  (C2_move defaultState ((0 : Int), (3 : Int)) ((0 : Int), (4 : Int))
    (by decide) (by decide) (by decide)).2.1 'P' (by decide) (by decide)

/-! ## Claim C8: serialization round-trip -/

theorem parseKey_posToKey_nat :
    ∀ a : Nat, a < 9 → ∀ b : Nat, b < 10 →
      parseKey (posToKey ((a : Int), (b : Int))) = some ((a : Int), (b : Int)) := by
  decide

theorem parseKey_posToKey {p : Pos} (h : inBounds p = true) :
    parseKey (posToKey p) = some p := by
  obtain ⟨x, y⟩ := p
  simp only [inBounds, Bool.and_eq_true, decide_eq_true_eq] at h
  obtain ⟨⟨⟨h1, h2⟩, h3⟩, h4⟩ := h
  have hx : x = ((x.toNat : Int)) := (Int.toNat_of_nonneg h1).symm
  have hy : y = ((y.toNat : Int)) := (Int.toNat_of_nonneg h3).symm
  rw [hx, hy]
  exact parseKey_posToKey_nat x.toNat (by omega) y.toNat (by omega)

theorem loadGo_save :
    ∀ (s acc : State), (∀ e ∈ s, inBounds e.1 = true ∧ validPiece e.2 = true) →
      (s.map Prod.fst).Nodup →
      (∀ e ∈ s, acc.any (fun a => a.1 = e.1) = false) →
      loadGo acc (saveToDict s) = .ok (acc ++ s) := by
  intro s
  induction s with
  | nil =>
    intro acc _ _ _
    simp [saveToDict, loadGo]
  | cons e t ih =>
    intro acc hval hnd hfresh
    obtain ⟨p, c⟩ := e
    have hb := hval (p, c) (List.mem_cons_self _ _)
    show loadGo acc ((posToKey p, c) :: saveToDict t) = _
    unfold loadGo
    rw [parseKey_posToKey hb.1]
    have hfr : acc.any (fun a => a.1 = p) = false :=
      hfresh (p, c) (List.mem_cons_self _ _)
    have hset : setItem acc p c = .ok (acc ++ [(p, c)]) := by
      simp [setItem, rawSet, hb.1, hb.2, hfr]
    show (match setItem acc p c with
          | Except.error e => Except.error e
          | Except.ok acc' => loadGo acc' (saveToDict t)) = _
    rw [hset]
    show loadGo (acc ++ [(p, c)]) (saveToDict t) = _
    have hnd' : (t.map Prod.fst).Nodup := (List.nodup_cons.mp hnd).2
    have hnmem : p ∉ t.map Prod.fst := (List.nodup_cons.mp hnd).1
    rw [ih (acc ++ [(p, c)]) (fun e he => hval e (List.mem_cons_of_mem _ he)) hnd'
      (fun e he => by
        rw [List.any_append]
        rw [hfresh e (List.mem_cons_of_mem _ he)]
        have hne : ¬ ((p, c).1 = e.1) := by
          intro hc
          have : e.1 ∈ t.map Prod.fst := List.mem_map_of_mem Prod.fst he
          rw [← hc] at this
          exact hnmem this
        simp [hne])]
    simp

theorem loadGo_ok_valid :
    ∀ (data : List (String × Char)) (acc s' : State), loadGo acc data = .ok s' →
      ∀ kc ∈ data, (parseKey kc.1).isSome = true ∧ validPiece kc.2 = true := by
  intro data
  induction data with
  | nil => intro acc s' _ kc hm; cases hm
  | cons e t ih =>
    intro acc s' h kc hm
    obtain ⟨k, c⟩ := e
    unfold loadGo at h
    cases hp : parseKey k with
    | none => rw [hp] at h; cases h
    | some p =>
      rw [hp] at h
      have h2 : (match setItem acc p c with
                 | Except.error e => Except.error e
                 | Except.ok acc' => loadGo acc' t) = Except.ok s' := h
      cases hs : setItem acc p c with
      | error e2 => rw [hs] at h2; cases h2
      | ok acc2 =>
        rw [hs] at h2
        have h3 : loadGo acc2 t = Except.ok s' := h2
        have hvpc : validPiece c = true := by
          have hok : (setItem acc p c).isOk = true := by rw [hs]; rfl
          unfold setItem at hok
          by_cases h1 : inBounds p = true
          · by_cases h2 : validPiece c = true
            · exact h2
            · rw [if_neg (not_not_intro h1), if_pos h2] at hok
              cases hok
          · rw [if_pos h1] at hok
            cases hok
        cases hm with
        | head => exact ⟨by rw [hp]; rfl, hvpc⟩
        | tail _ hm' => exact ih acc2 s' h3 kc hm'

/-- Claim C8: serializing any valid board state with `save_to_dict` and
loading the result with `load_from_dict` reproduces the state exactly, and a
successful `load_from_dict` certifies that every token parses to a pair of
two integers and every piece character lies in the valid alphabet (so any
entry violating either is rejected). -/
theorem C8_serialization_roundtrip :
    (∀ s : State, ValidState s → loadFromDict (saveToDict s) = .ok s) ∧
    (∀ (data : List (String × Char)) (s' : State), loadFromDict data = .ok s' →
      ∀ kc ∈ data, (parseKey kc.1).isSome = true ∧ validPiece kc.2 = true) := by
  constructor
  · intro s hv
    unfold loadFromDict
    rw [loadGo_save s [] hv.1 hv.2 (fun e _ => rfl)]
    rfl
  · intro data s' h
    exact loadGo_ok_valid data [] s' h

/-- Concrete instantiation of the round-trip theorem on the default opening
state and of the validity consequence on a one-entry dictionary. -/
theorem C8_serialization_witness :
    loadFromDict (saveToDict defaultState) = .ok defaultState ∧
    ((parseKey "(0, 0)").isSome = true ∧ validPiece 'R' = true) :=
  ⟨C8_serialization_roundtrip.1 defaultState (by decide),
   C8_serialization_roundtrip.2 [("(0, 0)", 'R')] [(((0 : Int), (0 : Int)), 'R')]
     (by decide) ("(0, 0)", 'R') (List.mem_cons_self _ _)⟩

/-! ## Recorder helper lemmas -/

theorem getLast?_cons_getD (a : Node) (l : List Node) :
    (a :: l).getLast? = some (l.getLast?.getD a) := by
  induction l generalizing a with
  | nil => rfl
  | cons b t ih =>
    rw [List.getLast?_cons_cons, ih b]
    rfl

theorem move_ok_elim {r r' : Recorder} {start stop : Pos} {desc : Option String}
    (h : r.move start stop desc = .ok r') :
    ∃ piece newState,
      stateGet r.lastNode.state start = some piece ∧
      nodeColor r.lastNode ≠ pieceColor piece ∧
      stateMove r.lastNode.state start stop = .ok newState ∧
      r' = { r with rest := r.rest ++ [moveNode start stop desc piece newState] } := by
  unfold Recorder.move at h
  split at h
  · cases h
  · split at h
    · cases h
    · rename_i piece hget
      split at h
      · cases h
      · rename_i hne
        split at h
        · cases h
        · rename_i newState hsm
          injection h with h'
          exact ⟨piece, newState, hget, hne, hsm, h'.symm⟩

theorem stepCmd_ok_elim {r r' : Recorder} {c : Cmd} {strictFlag g : Bool}
    (h : r.stepCmd c strictFlag g = .ok r') :
    ∃ start stop, r.move start stop (some (String.mk c)) = .ok r' := by
  unfold Recorder.stepCmd at h
  split at h
  · cases h
  · rename_i a b hp
    exact ⟨a, b, h⟩

theorem stepCmd_ok_len {r r' : Recorder} {c : Cmd} {strictFlag g : Bool}
    (h : r.stepCmd c strictFlag g = .ok r') :
    r'.historyLen = r.historyLen + 1 := by
  obtain ⟨a, b, hm⟩ := stepCmd_ok_elim h
  obtain ⟨piece, ns, _, _, _, rfl⟩ := move_ok_elim hm
  show (r.rest ++ [_]).length + 1 = _
  simp [Recorder.historyLen]

theorem rollback_ok_elim {r r' : Recorder} {steps : Int}
    (h : r.rollback steps = .ok r') :
    r' = { r with rest := popNRest r.rest steps.toNat } := by
  unfold Recorder.rollback at h
  split at h
  · cases h
  · injection h with h'
    exact h'.symm

theorem rollbackCp_ok_elim {r r' : Recorder} {name : String}
    (h : r.rollbackToCheckpoint name = .ok r') :
    ∃ t, lookupStr r.checkpoints name = some t ∧
      r' = { r with rest := shrinkRest r.rest t } := by
  unfold Recorder.rollbackToCheckpoint at h
  split at h
  · cases h
  · rename_i t ht
    injection h with h'
    exact ⟨t, ht, h'.symm⟩

theorem chain'_take {R : Node → Node → Prop} {l : List Node}
    (h : List.Chain' R l) (n : Nat) : List.Chain' R (l.take n) := by
  have h2 : List.Chain' R (l.take n ++ l.drop n) := by
    rw [List.take_append_drop]
    exact h
  exact List.Chain'.left_of_append h2

/-! ## Claim C3: alternation invariant -/

theorem nodeColor_moveNode (start stop : Pos) (desc : Option String)
    (piece : Char) (ns : State) :
    nodeColor (moveNode start stop desc piece ns) = pieceColor piece := rfl

theorem altOk_move {r r' : Recorder} {start stop : Pos} {desc : Option String}
    (h : List.Chain' AltRel r.history) (hm : r.move start stop desc = .ok r') :
    List.Chain' AltRel r'.history := by
  obtain ⟨piece, ns, hget, hne, hsm, rfl⟩ := move_ok_elim hm
  show List.Chain' AltRel (r.root :: (r.rest ++ [_]))
  rw [← List.cons_append, List.chain'_append]
  refine ⟨h, List.chain'_singleton _, ?_⟩
  intro x hx y hy
  rw [getLast?_cons_getD] at hx
  simp only [Option.mem_def, Option.some.injEq] at hx
  simp only [List.head?_cons, Option.mem_def, Option.some.injEq] at hy
  intro _ _
  rw [← hx, ← hy, nodeColor_moveNode]
  show nodeColor r.lastNode ≠ pieceColor piece
  exact hne

theorem altOk_execGo :
    ∀ (cmds : List Cmd) (r : Recorder), List.Chain' AltRel r.history →
      ∀ strictFlag g, List.Chain' AltRel ((r.execGo cmds strictFlag g).1).history := by
  intro cmds
  induction cmds with
  | nil => intro r h _ _; exact h
  | cons c cs ih =>
    intro r h strictFlag g
    simp only [Recorder.execGo]
    by_cases hc : c = []
    · rw [if_pos hc]
      exact ih r h strictFlag g
    · rw [if_neg hc]
      cases hsc : r.stepCmd c strictFlag g with
      | error e => exact h
      | ok r' =>
        obtain ⟨a, b, hm⟩ := stepCmd_ok_elim hsc
        exact ih r' (altOk_move h hm) strictFlag g

theorem altOk_take {r : Recorder} (h : List.Chain' AltRel r.history) (k : Nat) :
    List.Chain' AltRel (r.root :: r.rest.take k) := by
  have heq : r.root :: r.rest.take k = (r.root :: r.rest).take (k + 1) := by
    rw [List.take_succ_cons]
  rw [heq]
  exact chain'_take h (k + 1)

/-- Claim C3: in every recorder reachable by `move`, `exec`, `rollback` and
`rollback_to_checkpoint` (and `set_checkpoint`), consecutive history nodes
that both carry a move trace record different mover colors; equivalently,
`ChessRecorder.move` fails without appending whenever the moving piece's
color equals the color stored in the metadata of the current last node. -/
theorem C3_alternation :
    (∀ r : Recorder, Reachable r → List.Chain' AltRel r.history) ∧
    (∀ (r : Recorder) (start stop : Pos) (desc : Option String) (piece : Char),
      stateGet r.lastNode.state start = some piece →
      pieceColor piece = nodeColor r.lastNode →
      ∃ e, r.move start stop desc = .error e) := by
  constructor
  · intro r hr
    induction hr with
    | init s rf g => exact List.chain'_singleton _
    | move start stop desc hr h ih => exact altOk_move ih h
    | exec cmds strictFlag g hr ih => exact altOk_execGo cmds _ ih strictFlag g
    | rollback steps hr h ih =>
      have he := rollback_ok_elim h
      subst he
      show List.Chain' AltRel (_ :: popNRest _ _)
      rw [popNRest_eq_take]
      exact altOk_take ih _
    | rollbackCp name hr h ih =>
      obtain ⟨t, hl, he⟩ := rollbackCp_ok_elim h
      subst he
      show List.Chain' AltRel (_ :: shrinkRest _ _)
      unfold shrinkRest
      split
      · exact altOk_take ih _
      · exact ih
    | setCp name hr ih => exact ih
  · intro r start stop desc piece hget hc
    cases hcm : checkMove r.lastNode.state start stop r.rotateFlag with
    | error e => exact ⟨e, by unfold Recorder.move; rw [hcm]⟩
    | ok u =>
      refine ⟨"The color of the current player is the same as the previous player.", ?_⟩
      simp [Recorder.move, hcm, hget, hc]

/-- Concrete instantiation of the alternation theorem: the invariant holds
for a freshly constructed recorder, and a red move is refused when the last
node already records color "red". -/
theorem C3_alternation_witness :
    List.Chain' AltRel (Recorder.init defaultState none false).history ∧
    ∃ e, (Recorder.mk (Node.mk defaultState none [("color", "red")]) [] false []).move
          ((0 : Int), (0 : Int)) ((0 : Int), (1 : Int)) none = .error e :=
  ⟨C3_alternation.1 _ (Reachable.init defaultState none false),
   C3_alternation.2 _ ((0 : Int), (0 : Int)) ((0 : Int), (1 : Int)) none 'R'
     (by decide) (by decide)⟩

/-! ## Claim C4: checkpoint exactness -/

theorem lookupStr_setStr_self {α : Type} (l : List (String × α)) (k : String)
    (v : α) : lookupStr (setStr l k v) k = some v := by
  unfold setStr
  by_cases hany : l.any (fun e => e.1 = k) = true
  · rw [if_pos hany]
    induction l with
    | nil => cases hany
    | cons e t ih =>
      cases he : (decide (e.1 = k)) with
      | true =>
        have he' : e.1 = k := of_decide_eq_true he
        unfold lookupStr
        simp only [List.map_cons, List.find?_cons, if_pos he', decide_True]
        rfl
      | false =>
        have he' : ¬ e.1 = k := of_decide_eq_false he
        have hany' : t.any (fun e => e.1 = k) = true := by
          rw [List.any_cons] at hany
          simp only [he, Bool.false_or] at hany
          exact hany
        unfold lookupStr
        simp only [List.map_cons, List.find?_cons, if_neg he', he]
        exact ih hany'
  · rw [if_neg hany]
    unfold lookupStr
    rw [List.find?_append]
    have hnone : l.find? (fun e => e.1 = k) = none := by
      rw [List.find?_eq_none]
      intro x hx
      have := List.any_eq_false.mp (Bool.eq_false_iff.mpr hany) x hx
      simpa using this
    rw [hnone]
    simp [List.find?_cons]

theorem execGo_extends :
    ∀ (cmds : List Cmd) (r : Recorder) (strictFlag g : Bool),
      ((r.execGo cmds strictFlag g).1).root = r.root ∧
      ((r.execGo cmds strictFlag g).1).rotateFlag = r.rotateFlag ∧
      ((r.execGo cmds strictFlag g).1).checkpoints = r.checkpoints ∧
      ∃ tail, ((r.execGo cmds strictFlag g).1).rest = r.rest ++ tail := by
  intro cmds
  induction cmds with
  | nil => intro r s g; exact ⟨rfl, rfl, rfl, [], (List.append_nil _).symm⟩
  | cons c cs ih =>
    intro r s g
    simp only [Recorder.execGo]
    by_cases hc : c = []
    · rw [if_pos hc]
      exact ih r s g
    · rw [if_neg hc]
      cases hsc : r.stepCmd c s g with
      | error e => exact ⟨rfl, rfl, rfl, [], (List.append_nil _).symm⟩
      | ok r1 =>
        obtain ⟨a, b, hm⟩ := stepCmd_ok_elim hsc
        obtain ⟨piece, ns, _, _, _, hr1⟩ := move_ok_elim hm
        obtain ⟨h1, h2, h3, tail, h4⟩ := ih r1 s g
        subst hr1
        refine ⟨h1, h2, h3, [moveNode a b (some (String.mk c)) piece ns] ++ tail, ?_⟩
        rw [h4]
        simp

/-- Successions of successful `move` and `exec` operations, the growth steps
allowed between `set_checkpoint` and `rollback_to_checkpoint` in claim C4. -/
inductive MoveGrows : Recorder → Recorder → Prop
  | refl (r : Recorder) : MoveGrows r r
  | move {r r' r'' : Recorder} (start stop : Pos) (desc : Option String)
      (h : MoveGrows r r') (hm : r'.move start stop desc = .ok r'') :
      MoveGrows r r''
  | exec {r r' r'' : Recorder} (cmds : List Cmd) (strictFlag g : Bool)
      (h : MoveGrows r r') (he : r'.execGo cmds strictFlag g = (r'', none)) :
      MoveGrows r r''

theorem moveGrows_extends {r r' : Recorder} (h : MoveGrows r r') :
    r'.root = r.root ∧ r'.rotateFlag = r.rotateFlag ∧
    r'.checkpoints = r.checkpoints ∧ ∃ tail, r'.rest = r.rest ++ tail := by
  induction h with
  | refl => exact ⟨rfl, rfl, rfl, [], (List.append_nil _).symm⟩
  | move start stop desc h hm ih =>
    obtain ⟨piece, ns, _, _, _, hr⟩ := move_ok_elim hm
    obtain ⟨h1, h2, h3, tail, h4⟩ := ih
    subst hr
    refine ⟨h1, h2, h3, tail ++ [moveNode start stop desc piece ns], ?_⟩
    show _ ++ _ = _
    rw [h4]
    simp
  | exec cmds s g h he ih =>
    rename_i rmid rfin
    have hext := execGo_extends cmds rmid s g
    rw [he] at hext
    obtain ⟨h1, h2, h3, tail, h4⟩ := ih
    obtain ⟨g1, g2, g3, tail2, g4⟩ := hext
    have g1' : rfin.root = rmid.root := g1
    have g2' : rfin.rotateFlag = rmid.rotateFlag := g2
    have g3' : rfin.checkpoints = rmid.checkpoints := g3
    have g4' : rfin.rest = rmid.rest ++ tail2 := g4
    refine ⟨g1'.trans h1, g2'.trans h2, g3'.trans h3, tail ++ tail2, ?_⟩
    rw [g4', h4]
    simp

/-- Claim C4: after `set_checkpoint(name)` and any number of successful
`move`/`exec` operations (no rollback, no re-use of the name),
`rollback_to_checkpoint(name)` restores the history exactly to its
checkpoint-time contents, in particular its length and last state; for an
absent name it fails without producing a new history. -/
theorem C4_checkpoint :
    (∀ (r r' : Recorder) (name : String),
      MoveGrows (r.setCheckpoint name) r' →
      ∃ r'', r'.rollbackToCheckpoint name = .ok r'' ∧
        r''.history = r.history ∧ r''.lastNode.state = r.lastNode.state) ∧
    (∀ (r : Recorder) (name : String), lookupStr r.checkpoints name = none →
      ∃ e, r.rollbackToCheckpoint name = .error e) := by
  constructor
  · intro r r' name hg
    obtain ⟨h1, h2, h3, tail, h4⟩ := moveGrows_extends hg
    have hroot : r'.root = r.root := h1
    have hrest : r'.rest = r.rest ++ tail := h4
    have hcp : r'.checkpoints = setStr r.checkpoints name r.historyLen := h3
    have hlook : lookupStr r'.checkpoints name = some r.historyLen := by
      rw [hcp]
      exact lookupStr_setStr_self _ _ _
    have hshrink : shrinkRest r'.rest r.historyLen = r.rest := by
      unfold shrinkRest
      rw [hrest]
      by_cases htail : tail = []
      · subst htail
        rw [if_neg (by simp [Recorder.historyLen])]
        simp
      · rw [if_pos (by
          simp only [List.length_append, Recorder.historyLen]
          have : 0 < tail.length := List.length_pos.mpr htail
          omega)]
        have hlen : r.historyLen - 1 = r.rest.length := by
          simp [Recorder.historyLen]
        rw [hlen, List.take_left]
    refine ⟨{ r' with rest := shrinkRest r'.rest r.historyLen }, ?_, ?_, ?_⟩
    · unfold Recorder.rollbackToCheckpoint
      rw [hlook]
    · show r'.root :: shrinkRest r'.rest r.historyLen = r.root :: r.rest
      rw [hroot, hshrink]
    · show ((shrinkRest r'.rest r.historyLen).getLast?.getD r'.root).state = _
      rw [hroot, hshrink]
      rfl
  · intro r name h
    refine ⟨"Checkpoint not found", ?_⟩
    unfold Recorder.rollbackToCheckpoint
    rw [h]

/-- Concrete instantiation of the checkpoint theorem: an immediate rollback
to a fresh checkpoint restores the recorder, and an unknown name fails. -/
theorem C4_checkpoint_witness :
    (∃ r'', ((Recorder.init defaultState none false).setCheckpoint "cp").rollbackToCheckpoint "cp" = .ok r'' ∧
      r''.history = (Recorder.init defaultState none false).history ∧
      r''.lastNode.state = (Recorder.init defaultState none false).lastNode.state) ∧
    (∃ e, (Recorder.init defaultState none false).rollbackToCheckpoint "nope" = .error e) :=
  ⟨C4_checkpoint.1 (Recorder.init defaultState none false) _ "cp" (MoveGrows.refl _),
   C4_checkpoint.2 (Recorder.init defaultState none false) "nope" rfl⟩

/-! ## Claim C5: per-command atomicity of exec -/

/-- Claim C5: when `exec` runs a command list and the first failure occurs at
command `c` (after the successful prefix `done` of nonempty commands), the
effects of the prefix stay committed — exactly `done.length` new nodes — the
failing and following commands change nothing, and the error is returned at
once. -/
theorem C5_exec_atomic :
    ∀ (r r' : Recorder) (done : List Cmd) (c : Cmd) (rest : List Cmd)
      (strictFlag g : Bool) (e : String),
      r.execGo done strictFlag g = (r', none) →
      (∀ d ∈ done, d ≠ []) →
      r'.stepCmd c strictFlag g = .error e →
      c ≠ [] →
      r.execGo (done ++ c :: rest) strictFlag g = (r', some e) ∧
      r'.historyLen = r.historyLen + done.length := by
  intro r r' done c rest s g e
  induction done generalizing r with
  | nil =>
    intro h1 _ h3 h4
    have h1' : (r, (none : Option String)) = (r', none) := h1
    injection h1' with ha _
    subst ha
    constructor
    · show Recorder.execGo r (c :: rest) s g = _
      simp only [Recorder.execGo]
      rw [if_neg h4, h3]
    · simp
  | cons d t ih =>
    intro h1 h2 h3 h4
    have hd : d ≠ [] := h2 d (List.mem_cons_self _ _)
    simp only [Recorder.execGo] at h1
    rw [if_neg hd] at h1
    cases hsc : r.stepCmd d s g with
    | error e2 =>
      rw [hsc] at h1
      have h1' : (r, some e2) = (r', (none : Option String)) := h1
      injection h1' with _ hb
      cases hb
    | ok r1 =>
      rw [hsc] at h1
      have h1' : Recorder.execGo r1 t s g = (r', none) := h1
      obtain ⟨hgo, hlen⟩ := ih r1 h1' (fun x hx => h2 x (List.mem_cons_of_mem _ hx)) h3 h4
      constructor
      · show Recorder.execGo r ((d :: t) ++ c :: rest) s g = _
        simp only [List.cons_append, Recorder.execGo]
        rw [if_neg hd, hsc]
        exact hgo
      · rw [hlen, stepCmd_ok_len hsc]
        simp only [List.length_cons]
        omega

/-- Concrete instantiation of the exec-atomicity theorem: an empty prefix
followed by a malformed command returns the unchanged recorder with the
parse error. -/
theorem C5_exec_atomic_witness :
    (Recorder.init defaultState none false).execGo ([] ++ ['x'] :: []) false false =
      (Recorder.init defaultState none false, some "IndexError: command too short") ∧
    (Recorder.init defaultState none false).historyLen =
      (Recorder.init defaultState none false).historyLen + ([] : List Cmd).length :=
  C5_exec_atomic (Recorder.init defaultState none false)
    (Recorder.init defaultState none false) [] ['x'] [] false false
    "IndexError: command too short" rfl
    (fun d hd => absurd hd (List.not_mem_nil d)) (by decide) (by decide)

/-! ## Claim C1: parser / checker consistency -/

theorem insByKey_mem {key : Pos → Int} {x a : Pos} :
    ∀ {l : List Pos}, x ∈ insByKey key a l → x = a ∨ x ∈ l := by
  intro l
  induction l with
  | nil =>
    intro h
    simp only [insByKey, List.mem_singleton] at h
    exact Or.inl h
  | cons y ys ih =>
    intro h
    unfold insByKey at h
    by_cases hk : key a ≤ key y
    · rw [if_pos hk] at h
      rcases List.mem_cons.mp h with h1 | h2
      · exact Or.inl h1
      · exact Or.inr h2
    · rw [if_neg hk] at h
      rcases List.mem_cons.mp h with h1 | h2
      · right
        rw [h1]
        exact List.mem_cons_self _ _
      · rcases ih h2 with h3 | h4
        · exact Or.inl h3
        · exact Or.inr (List.mem_cons_of_mem _ h4)

theorem sortByKey_mem {key : Pos → Int} {x : Pos} :
    ∀ {l : List Pos}, x ∈ sortByKey key l → x ∈ l := by
  intro l
  induction l with
  | nil => intro h; exact absurd h (List.not_mem_nil x)
  | cons a t ih =>
    intro h
    unfold sortByKey at h
    rcases insByKey_mem h with h1 | h2
    · rw [h1]
      exact List.mem_cons_self _ _
    · exact List.mem_cons_of_mem _ (ih h2)

theorem sortForSide_mem {x : Pos} {l : List Pos} {side : String}
    (h : x ∈ sortForSide l side) : x ∈ l := by
  unfold sortForSide at h
  by_cases hs : side = "down"
  · rw [if_pos hs] at h
    exact sortByKey_mem h
  · rw [if_neg hs] at h
    exact sortByKey_mem h

theorem mem_of_getLast?Pos :
    ∀ {l : List Pos} {a : Pos}, l.getLast? = some a → a ∈ l := by
  intro l
  induction l with
  | nil => intro a h; cases h
  | cons b t ih =>
    intro a h
    cases t with
    | nil =>
      cases h
      exact List.mem_cons_self _ _
    | cons c u =>
      rw [List.getLast?_cons_cons] at h
      exact List.mem_cons_of_mem _ (ih h)

theorem selectStartNormal_mem {positions : List Pos} {col : Int} {p : Pos}
    (h : selectStartNormal positions col = .ok p) : p ∈ positions := by
  unfold selectStartNormal at h
  split at h
  · rename_i q hq
    injection h with h'
    rw [← h']
    exact List.mem_of_find?_eq_some hq
  · cases h

theorem selectStartHard_mem {positions : List Pos} {c0 : Char} {side : String}
    {p : Pos} (h : selectStartHard positions c0 side = .ok p) :
    p ∈ positions := by
  unfold selectStartHard at h
  split at h
  · cases h
  · rename_i p0 ps
    split at h
    · cases h
    · split at h
      · split at h
        · cases h
        · split at h
          · cases h
          · rename_i q tail hsort
            injection h with h'
            rw [← h']
            exact sortForSide_mem (hsort ▸ List.mem_cons_self q tail)
      · split at h
        · split at h
          · cases h
          · split at h
            · cases h
            · rename_i q hlast
              injection h with h'
              rw [← h']
              exact sortForSide_mem (mem_of_getLast?Pos hlast)
        · split at h
          · cases h
          · split at h
            · rename_i q0 q tail hsort
              injection h with h'
              rw [← h']
              exact sortForSide_mem
                (hsort ▸ List.mem_cons_of_mem q0 (List.mem_cons_self q tail))
            · cases h

theorem stateMap_get_isSome {s : State} {piece : Char} {p : Pos}
    (h : p ∈ stateMap s piece) : (stateGet s p).isSome = true := by
  unfold stateMap at h
  obtain ⟨e, he, hep⟩ := List.mem_map.mp h
  have hes : e ∈ s := (List.mem_filter.mp he).1
  have hsome : (s.find? (fun e => e.1 = p)).isSome = true :=
    List.find?_isSome.mpr ⟨e, hes, by simp [hep]⟩
  rcases Option.isSome_iff_exists.mp hsome with ⟨a, ha⟩
  unfold stateGet
  rw [ha]
  rfl

/-- Claim C1 (amended): every command accepted by `parse_cmd` returns a
start position that is occupied in the queried state (so `check_move`'s
"no piece at start" precondition always holds for parser output); parser
acceptance does not, however, imply that `check_move` accepts the move — the
checker may still reject it, e.g. when start equals end. -/
theorem C1_parse_start_occupied :
    ∀ (s : State) (cmd : Cmd) (rotateFlag : Option Bool) (strictFlag g : Bool)
      (start stop : Pos),
      parseCmd s cmd rotateFlag strictFlag g = .ok (start, stop) →
      (stateGet s start).isSome = true := by
  intro s cmd rf st g start stop h
  unfold parseCmd at h
  split at h
  · split at h
    · cases h
    · rename_i color hcolor
      split at h
      · cases h
      · rename_i piece hpiece
        split at h
        · cases h
        · rename_i startPos hstart
          split at h
          · cases h
          · rename_i stopPos hstop
            injection h with h'
            have hs : startPos = start := congrArg Prod.fst h'
            rw [← hs]
            split at hstart
            · exact stateMap_get_isSome (selectStartHard_mem hstart)
            · split at hstart
              · cases hstart
              · split at hstart
                · cases hstart
                · exact stateMap_get_isSome (selectStartNormal_mem hstart)
  · cases h

/-- The parser / checker consistency claim fails as stated: the well-formed
command "pawn one traverse to one" is accepted by `parse_cmd` on the default
opening state (the red pawn at column one is already on that file), yet the
returned pair has start = end, which `check_move` rejects. -/
theorem C1_parse_checker_counterexample :
    parseCmd defaultState "兵一平一".data none false false =
      .ok (((8 : Int), (3 : Int)), ((8 : Int), (3 : Int))) ∧
    checkMove defaultState ((8 : Int), (3 : Int)) ((8 : Int), (3 : Int)) false =
      .error "Start and end cannot be the same" := by
  constructor
  · rfl
  · rfl

/-- Concrete instantiation of the amended parser claim: the cannon command
of the spec scenario yields the occupied start `(7, 2)`. -/
theorem C1_parse_start_occupied_witness :
    (stateGet defaultState ((7 : Int), (2 : Int))).isSome = true :=
  C1_parse_start_occupied defaultState "炮二平五".data none false false
    ((7 : Int), (2 : Int)) ((4 : Int), (2 : Int)) (by decide)

/-! ## Claim C7: pawn rule -/

set_option maxRecDepth 8000 in
set_option maxHeartbeats 1600000 in
/-- Claim C7: for every valid state, occupied start and end position,
`check_move` accepts a Pawn move exactly when it does not capture an
own-color piece, is a single orthogonal step, is not backward for the pawn's
resolved side, and keeps the column fixed while the pawn is still on its own
river half (rows 0-4 for side "down", 5-9 for "up"). -/
theorem C7_pawn_rule :
    ∀ (s : State) (start stop : Pos) (rotateFlag : Bool) (piece : Char),
      ValidState s →
      stateGet s start = some piece →
      piece = 'P' ∨ piece = 'p' →
      (checkMove s start stop rotateFlag = .ok () ↔
        (¬ ∃ t, stateGet s stop = some t ∧ sameCase piece t = true) ∧
        ((|stop.1 - start.1|, |stop.2 - start.2|) = ((1 : Int), (0 : Int)) ∨
         (|stop.1 - start.1|, |stop.2 - start.2|) = ((0 : Int), (1 : Int))) ∧
        (sideOf piece rotateFlag = "up" → stop.2 - start.2 ≤ 0) ∧
        (sideOf piece rotateFlag = "down" → 0 ≤ stop.2 - start.2) ∧
        ((if sideOf piece rotateFlag = "down" then 0 ≤ start.2 ∧ start.2 ≤ 4
          else 5 ≤ start.2 ∧ start.2 ≤ 9) → stop.1 - start.1 = 0)) := by
  intro s start stop rf piece hv hget hp
  have hb : inBounds start = true := (valid_stateGet hv hget).1
  have hcontains : containsPos s start = true := by
    unfold containsPos
    rw [hb, hget]
    rfl
  have hbrow : 0 ≤ start.2 ∧ start.2 ≤ 9 := by
    simp only [inBounds, Bool.and_eq_true, decide_eq_true_eq] at hb
    omega
  by_cases hse : start = stop
  · subst hse
    constructor
    · intro h
      simp [checkMove, hcontains] at h
    · rintro ⟨h1, h2, h3, h4, h5⟩
      rcases h2 with h2 | h2 <;> simp only [sub_self, abs_zero, Prod.mk.injEq] at h2 <;> omega
  · cases hst : stateGet s stop with
    | none =>
      have hcs : containsPos s stop = false := by
        unfold containsPos
        rw [hst]
        simp
      rcases hp with rfl | rfl <;> cases rf <;>
        (simp [checkMove, hcontains, hse, hget, hcs, hst, checkInSide, sideOf,
               pieceColor] <;> simp only [Int.abs_eq_natAbs, Prod.mk.injEq] <;>
         split_ifs <;>
           first
             | omega
             | (simp only [false_iff, true_iff] <;> omega))
    | some t =>
      have hbt : inBounds stop = true := (valid_stateGet hv hst).1
      have hcs : containsPos s stop = true := by
        unfold containsPos
        rw [hbt, hst]
        rfl
      by_cases hsame : sameCase piece t = true
      · constructor
        · intro h
          simp [checkMove, hcontains, hse, hget, hcs, hst, hsame] at h
        · rintro ⟨h1, h2, h3, h4, h5⟩
          exact absurd ⟨t, rfl, hsame⟩ h1
      · have hsame' : sameCase piece t = false := Bool.eq_false_iff.mpr hsame
        rcases hp with rfl | rfl <;> cases rf <;>
          (simp [checkMove, hcontains, hse, hget, hcs, hst, hsame', checkInSide,
                 sideOf, pieceColor] <;> simp only [Int.abs_eq_natAbs, Prod.mk.injEq] <;>
           split_ifs <;>
           first
             | omega
             | (simp only [false_iff, true_iff] <;> omega))


/-- Concrete instantiation of the pawn-rule theorem: the red pawn at `(0,3)`
advances to `(0,4)` on the default opening state. -/
theorem C7_pawn_rule_witness :
    checkMove defaultState ((0 : Int), (3 : Int)) ((0 : Int), (4 : Int)) false = .ok () :=
  (C7_pawn_rule defaultState ((0 : Int), (3 : Int)) ((0 : Int), (4 : Int)) false 'P'
    (by decide) rfl (Or.inl rfl)).mpr
    (by
      refine ⟨?_, Or.inr (by decide), ?_, fun _ => by decide, fun _ => by decide⟩
      · rintro ⟨t, ht, _⟩
        have hnone : stateGet defaultState ((0 : Int), (4 : Int)) = none := rfl
        rw [hnone] at ht
        cases ht
      · intro h
        exact absurd h (by decide))

end Chessnote
